import Mathlib

/-!
Verification of the RPW line-balancing core (modelos/tarea.py, modelos/estacion.py,
modelos/linea_produccion.py, servicios/balanceador_rpw.py) against its specification.

Modelling conventions:
* Python floats are modelled as exact rationals (`ℚ`); `float('inf')` (the value
  `calcular_tiempo_ciclo` returns when `demanda_diaria <= 0`) is modelled as `none`
  in `Option ℚ`, with the comparison helpers below mirroring IEEE comparisons with
  infinity on the finite values the program produces.
* The Python dict `LineaProduccion.tareas` is modelled as a `List Tarea` in insertion
  order; dict insertion (`self.tareas[tarea.id] = tarea`) replaces in place or appends.
* `Tarea._sucesores` is rebuilt from scratch by `_actualizar_relaciones_precedencia`
  after every insertion, so it always equals the derived successor set; it is modelled
  as the derived function `sucesores`.
* `Tarea.precedencias` is a Python set built by `set(precedencias)`; it is modelled as
  a duplicate-free list (`crearTarea` erases duplicates).  All uses are membership
  tests, subset tests and its cardinality, which do not depend on iteration order.
* Exceptions are modelled with `Except`; the single Python class `ValidacionError` is
  raised with distinct messages, mirrored by the constructors of `ValidacionError`
  below (message payloads are not modelled).
-/

instance {ε α : Type _} [DecidableEq ε] [DecidableEq α] : DecidableEq (Except ε α) :=
  fun a b =>
    match a, b with
    | .error x, .error y =>
      if h : x = y then .isTrue (h ▸ rfl) else .isFalse (fun hh => h (Except.error.inj hh))
    | .ok x, .ok y =>
      if h : x = y then .isTrue (h ▸ rfl) else .isFalse (fun hh => h (Except.ok.inj hh))
    | .error _, .ok _ => .isFalse Except.noConfusion
    | .ok _, .error _ => .isFalse Except.noConfusion

/-- Lexicographic comparison of character lists by code point. -/
def charsLe : List Char → List Char → Bool
  | [], _ => true
  | _ :: _, [] => false
  | c :: cs, d :: ds => if c = d then charsLe cs ds else decide (c < d)

/-- Python string comparison: lexicographic by code point. -/
def cadenaLe (a b : String) : Bool :=
  charsLe a.data b.data

/-- The Python exception `ValidacionError`; one constructor per raise site relevant
to the balancing core, distinguished in the source only by message text. -/
inductive ValidacionError where
  | idVacio
  | descripcionVacia
  | tiempoNoPositivo
  | sinTareas
  | erroresPrecedencias
  | ciclosDetectados
  | tiempoCicloInvalido
deriving DecidableEq, Repr

/-- `modelos/tarea.py`, class `Tarea`: id, description, duration (minutes),
predecessor ids, and the cached positional weight (`peso_posicional`, initially 0.0).
The derived `_sucesores` set is modelled by the function `sucesores` below. -/
structure Tarea where
  id : String
  descripcion : String
  tiempo : ℚ
  precedencias : List String
  pesoPosicional : ℚ := 0
deriving DecidableEq, Repr

/-- `Tarea.__init__` together with `Tarea._validar_datos`: raises `ValidacionError`
when the id is empty, the description is empty, or the duration is not positive;
`set(precedencias)` is modelled by erasing duplicates. -/
def crearTarea (id descripcion : String) (tiempo : ℚ) (precedencias : List String) :
    Except ValidacionError Tarea :=
  if id = "" then .error .idVacio
  else if descripcion = "" then .error .descripcionVacia
  else if tiempo ≤ 0 then .error .tiempoNoPositivo
  else .ok ⟨id, descripcion, tiempo, precedencias.eraseDups, 0⟩

/-- `modelos/estacion.py`, class `Estacion`.  `tiempo_ciclo_max` may be the float
infinity (when the line's demand is nonpositive), modelled by `none`. -/
structure Estacion where
  numero : Nat
  tareasAsignadas : List Tarea
  tiempoTotal : ℚ
  tiempoCicloMax : Option ℚ
deriving DecidableEq, Repr

/-- `Estacion.__init__(numero, tiempo_ciclo_max)`: fresh station with no tasks. -/
def Estacion.nueva (numero : Nat) (tiempoCicloMax : Option ℚ) : Estacion :=
  ⟨numero, [], 0, tiempoCicloMax⟩

/-- Comparison `x <= c` where `c` may be the float infinity (`none`). -/
def cicloLe (x : ℚ) (c : Option ℚ) : Bool :=
  match c with
  | none => true
  | some q => x ≤ q

/-- `Estacion.puede_agregar_tarea`: `tiempo_total + tarea.tiempo <= tiempo_ciclo_max`. -/
def Estacion.puedeAgregarTarea (e : Estacion) (t : Tarea) : Bool :=
  cicloLe (e.tiempoTotal + t.tiempo) e.tiempoCicloMax

/-- `Estacion.agregar_tarea`: appends the task and adds its duration when it fits,
returning `True`; otherwise returns `False` leaving the station unchanged. -/
def Estacion.agregarTarea (e : Estacion) (t : Tarea) : Bool × Estacion :=
  if e.puedeAgregarTarea t then
    (true, { e with tareasAsignadas := e.tareasAsignadas ++ [t],
                    tiempoTotal := e.tiempoTotal + t.tiempo })
  else (false, e)

/-- Helper for `Estacion.remover_tarea`: removes the first task with the given id,
returning its duration and the remaining list. -/
def removerDeLista (tid : String) : List Tarea → Option (ℚ × List Tarea)
  | [] => none
  | t :: ts =>
    if t.id = tid then some (t.tiempo, ts)
    else (removerDeLista tid ts).map (fun p => (p.1, t :: p.2))

/-- `Estacion.remover_tarea`: removes the first task whose id matches, subtracting
its duration from the running total; returns `False` when no task matches. -/
def Estacion.removerTarea (e : Estacion) (tid : String) : Bool × Estacion :=
  match removerDeLista tid e.tareasAsignadas with
  | none => (false, e)
  | some (q, ts) =>
    (true, { e with tareasAsignadas := ts, tiempoTotal := e.tiempoTotal - q })

/-- `Estacion.calcular_utilizacion`: `0` when the capacity is `0`, otherwise
`tiempo_total / tiempo_ciclo_max * 100`; a finite total divided by the float
infinity is exactly `0`. -/
def Estacion.calcularUtilizacion (e : Estacion) : ℚ :=
  match e.tiempoCicloMax with
  | none => 0
  | some q => if q = 0 then 0 else e.tiempoTotal / q * 100

/-- `Estacion.obtener_ids_tareas`. -/
def Estacion.obtenerIdsTareas (e : Estacion) : List String :=
  e.tareasAsignadas.map (·.id)

/-- `modelos/linea_produccion.py`, class `LineaProduccion`.  `tiempoCicloCache`
models the private float `_tiempo_ciclo` (initially `0.0`). -/
structure LineaProduccion where
  tareas : List Tarea
  estaciones : List Estacion := []
  demandaDiaria : Int
  tiempoDisponible : ℚ
  tiempoCicloCache : ℚ := 0
deriving DecidableEq, Repr

/-- The keys of the `tareas` dict, in insertion order. -/
def Ids (l : LineaProduccion) : List String :=
  l.tareas.map (·.id)

/-- Python dict assignment `self.tareas[tarea.id] = tarea`: replace the entry with
the same key in place, or append a new entry. -/
def dictInsert : List Tarea → Tarea → List Tarea
  | [], t => [t]
  | x :: xs, t => if x.id = t.id then t :: xs else x :: dictInsert xs t

/-- `LineaProduccion.agregar_tarea` followed by
`_actualizar_relaciones_precedencia` (the successor rebuild is implicit because
successors are modelled as the derived function `sucesores`). -/
def LineaProduccion.agregarTarea (l : LineaProduccion) (t : Tarea) : LineaProduccion :=
  { l with tareas := dictInsert l.tareas t }

/-- The successor ids of `u`, exactly as `_actualizar_relaciones_precedencia`
rebuilds them: every task that lists `u` among its predecessors. -/
def sucesores (l : LineaProduccion) (u : String) : List String :=
  (l.tareas.filter (fun t => u ∈ t.precedencias)).map (·.id)

/-- `LineaProduccion.calcular_tiempo_ciclo`: `float('inf')` (here `none`) when
`demanda_diaria <= 0`, otherwise `tiempo_disponible / demanda_diaria`. -/
def calcularTiempoCiclo (l : LineaProduccion) : Option ℚ :=
  if l.demandaDiaria ≤ 0 then none
  else some (l.tiempoDisponible / (l.demandaDiaria : ℚ))

/-- The state effect of `calcular_tiempo_ciclo`: the cache `_tiempo_ciclo` is
updated only on the positive-demand path (the infinity return skips the cache). -/
def calcularTiempoCicloActualiza (l : LineaProduccion) : LineaProduccion :=
  if l.demandaDiaria ≤ 0 then l
  else { l with tiempoCicloCache := l.tiempoDisponible / (l.demandaDiaria : ℚ) }

/-- `LineaProduccion.obtener_tiempo_ciclo`: recompute when the cache is `0`,
otherwise return the cached value. -/
def obtenerTiempoCiclo (l : LineaProduccion) : Option ℚ :=
  if l.tiempoCicloCache = 0 then calcularTiempoCiclo l else some l.tiempoCicloCache

/-- `LineaProduccion.obtener_tiempo_total_tareas`. -/
def obtenerTiempoTotalTareas (l : LineaProduccion) : ℚ :=
  (l.tareas.map (·.tiempo)).sum

/-- `LineaProduccion.validar_precedencias`: one entry `(task id, predecessor id)`
per predecessor reference that does not resolve (the source builds message
strings; only the pairs and emptiness are observable to the claims). -/
def validarPrecedencias (l : LineaProduccion) : List (String × String) :=
  l.tareas.flatMap
    (fun t => (t.precedencias.filter (fun p => ¬ p ∈ Ids l)).map (fun p => (t.id, p)))

/-- The inner DFS of `LineaProduccion.detectar_ciclos` (`tiene_ciclo`), processing a
worklist of sibling node ids against the shared visited set `vis` and the current
recursion stack `pila`: a node on the stack signals a cycle, an already-visited node
is skipped, and otherwise the node is marked visited, pushed, and its successors are
explored before the remaining siblings.  The Python recursion has no fuel; the `Nat`
argument (decremented on every step so that the recursion is structural) only bounds
the running time of the pure model and is chosen generously by `detectarCiclos`. -/
def tieneCiclo (l : LineaProduccion) :
    Nat → List String → List String → List String → Bool × List String
  | 0, _, vis, _ => (true, vis)
  | _ + 1, [], vis, _ => (false, vis)
  | fuel + 1, tid :: rest, vis, pila =>
    if tid ∈ pila then (true, vis)
    else if tid ∈ vis then tieneCiclo l fuel rest vis pila
    else
      match l.tareas.find? (fun t => t.id == tid) with
      | none => tieneCiclo l fuel rest (tid :: vis) pila
      | some _ =>
        let r := tieneCiclo l fuel (sucesores l tid) (tid :: vis) (tid :: pila)
        if r.1 then (true, r.2) else tieneCiclo l fuel rest r.2 pila

/-- The fuel `detectarCiclos` hands to each DFS start: enough steps for a graph over
the line's tasks (the DFS touches each node and each successor list entry at most
once per start). -/
def combustibleDFS (l : LineaProduccion) : Nat :=
  (l.tareas.length + 2) * (l.tareas.length + 2)

/-- The outer loop of `detectar_ciclos`: start a DFS (with an empty stack) from every
not-yet-visited task id, sharing the visited set across the starts. -/
def detectarCiclosAux (l : LineaProduccion) :
    List String → List String → Bool × List String
  | [], vis => (false, vis)
  | tid :: rest, vis =>
    if tid ∈ vis then detectarCiclosAux l rest vis
    else
      let res := tieneCiclo l (combustibleDFS l) [tid] vis []
      if res.1 then (true, res.2) else detectarCiclosAux l rest res.2

/-- `LineaProduccion.detectar_ciclos`: `true` iff the DFS finds a node that is
revisited while still on the stack. -/
def detectarCiclos (l : LineaProduccion) : Bool :=
  (detectarCiclosAux l (Ids l) []).1

/-- `Tarea.calcular_peso_posicional`, run on a freshly reset line: the task's
duration plus the weights of its direct successors.  The memoisation through
`peso_posicional > 0` caches exactly this value (all durations are positive), so
the pure recursion is value-faithful; the `Nat` fuel only bounds the recursion
depth of the model and is chosen larger than the longest successor chain of an
acyclic graph by `pesoPosicional`. -/
def pesoFuel (l : LineaProduccion) : Nat → String → ℚ
  | 0, _ => 0
  | fuel + 1, tid =>
    match l.tareas.find? (fun t => t.id == tid) with
    | none => 0
    | some t => t.tiempo + ((sucesores l tid).map (pesoFuel l fuel)).sum

/-- The positional weight of a task id, with fuel sufficient for any acyclic
graph over the line's tasks. -/
def pesoPosicional (l : LineaProduccion) (tid : String) : ℚ :=
  pesoFuel l (l.tareas.length + 1) tid

/-- `BalanceadorRPW._calcular_pesos_posicionales`: reset every cached weight and
recompute it; the resulting state stores the recursive weight on every task. -/
def calcularPesosPosicionales (l : LineaProduccion) : LineaProduccion :=
  { l with tareas := l.tareas.map (fun t => { t with pesoPosicional := pesoPosicional l t.id }) }

/-- The sort key order of `_ordenar_tareas_por_peso`: ascending lexicographic
order on `(-peso_posicional, len(precedencias), id)`. -/
def claveLe (a b : Tarea) : Bool :=
  if a.pesoPosicional = b.pesoPosicional then
    if a.precedencias.length = b.precedencias.length then cadenaLe a.id b.id
    else a.precedencias.length < b.precedencias.length
  else b.pesoPosicional < a.pesoPosicional

/-- Stable insertion into a sorted list (insert before the first element that is
not strictly smaller). -/
def insertarOrdenado (t : Tarea) : List Tarea → List Tarea
  | [] => [t]
  | x :: xs => if claveLe t x then t :: x :: xs else x :: insertarOrdenado t xs

/-- A stable sort by `claveLe`; agrees with Python's stable `sorted` (ties beyond
the full key are impossible between distinct dict values because ids are unique
dict keys). -/
def ordenarLista : List Tarea → List Tarea
  | [] => []
  | x :: xs => insertarOrdenado x (ordenarLista xs)

/-- `BalanceadorRPW._ordenar_tareas_por_peso`. -/
def ordenarTareasPorPeso (l : LineaProduccion) : List Tarea :=
  ordenarLista l.tareas

/-- `BalanceadorRPW._precedencias_satisfechas`: subset test against the assigned set. -/
def precedenciasSatisfechas (t : Tarea) (asignadas : List String) : Bool :=
  t.precedencias.all (fun p => p ∈ asignadas)

/-- `BalanceadorRPW._puede_asignar_a_estacion`: rechecks the capacity; its loop over
the station's tasks only `continue`s in every branch, so it never rejects. -/
def puedeAsignarAEstacion (t : Tarea) (e : Estacion) : Bool :=
  if ¬ e.puedeAgregarTarea t then false else true

/-- The scan over existing stations in `_asignar_tareas_a_estaciones`: apply
`agregar_tarea` to the first station that fits (both checks of the source), or
`none` when no existing station fits. -/
def asignarExistente (t : Tarea) : List Estacion → Option (Bool × List Estacion)
  | [] => none
  | e :: es =>
    if e.puedeAgregarTarea t && puedeAsignarAEstacion t e then
      let r := e.agregarTarea t
      some (r.1, r.2 :: es)
    else
      match asignarExistente t es with
      | some r => some (r.1, e :: r.2)
      | none => none

/-- The single pass of `_asignar_tareas_a_estaciones` over the ranked tasks:
skip tasks with unassigned predecessors, place each remaining task into the first
existing station that fits or into a freshly created station (which is appended
even when `agregar_tarea` then fails), and record the task as assigned only when
`agregar_tarea` returned `True`. -/
def asignarLoop (tc : Option ℚ) :
    List Tarea → List Estacion → List String → List Estacion
  | [], ests, _ => ests
  | t :: rest, ests, asig =>
    if precedenciasSatisfechas t asig then
      match asignarExistente t ests with
      | some (ok, ests') =>
        if ok then asignarLoop tc rest ests' (t.id :: asig)
        else asignarLoop tc rest ests' asig
      | none =>
        let r := (Estacion.nueva (ests.length + 1) tc).agregarTarea t
        let ests' := ests ++ [r.2]
        if r.1 then asignarLoop tc rest ests' (t.id :: asig)
        else asignarLoop tc rest ests' asig
    else asignarLoop tc rest ests asig

/-- `BalanceadorRPW._asignar_tareas_a_estaciones`. -/
def asignarTareasAEstaciones (l : LineaProduccion) (ordenadas : List Tarea) :
    List Estacion :=
  asignarLoop (obtenerTiempoCiclo l) ordenadas [] []

/-- The statistics dict of `_generar_estadisticas`, restricted to the fields the
claims observe (`tiempo_ocioso_total` and `estaciones_detalle` are omitted). -/
structure Estadisticas where
  numeroEstaciones : Nat
  tiempoCiclo : Option ℚ
  utilizacionPromedio : ℚ
  utilizacionMinima : ℚ
  utilizacionMaxima : ℚ
  eficienciaLinea : ℚ
deriving DecidableEq, Repr

/-- `sum / (n * tc) * 100` where `tc` may be infinity (a finite value divided by
infinity is exactly `0`). -/
def eficienciaDe (total : ℚ) (n : Nat) (tc : Option ℚ) : ℚ :=
  match tc with
  | none => 0
  | some q => total / ((n : ℚ) * q) * 100

/-- `BalanceadorRPW._generar_estadisticas`: the empty dict (`none`) when there are
no stations, otherwise the aggregate metrics. -/
def generarEstadisticas (l : LineaProduccion) (ests : List Estacion) :
    Option Estadisticas :=
  match ests.map Estacion.calcularUtilizacion with
  | [] => none
  | u :: us =>
    some
      { numeroEstaciones := ests.length
        tiempoCiclo := obtenerTiempoCiclo l
        utilizacionPromedio := (u + us.sum) / ((us.length + 1 : Nat) : ℚ)
        utilizacionMinima := us.foldl min u
        utilizacionMaxima := us.foldl max u
        eficienciaLinea := eficienciaDe (obtenerTiempoTotalTareas l) ests.length
          (obtenerTiempoCiclo l) }

/-- Comparison `c <= 0` where `c` may be infinity (infinity is not `<= 0`). -/
def cicloNoPositivo (c : Option ℚ) : Bool :=
  match c with
  | none => false
  | some q => q ≤ 0

/-- `BalanceadorRPW._validar_entrada`: no tasks, unresolved predecessor references,
cycles, and a nonpositive cycle time, checked in that order. -/
def validarEntrada (l : LineaProduccion) : Except ValidacionError Unit :=
  if l.tareas.isEmpty then .error .sinTareas
  else if ¬ (validarPrecedencias l).isEmpty then .error .erroresPrecedencias
  else if detectarCiclos l then .error .ciclosDetectados
  else if cicloNoPositivo (calcularTiempoCiclo l) then .error .tiempoCicloInvalido
  else .ok ()

/-- `BalanceadorRPW.balancear`: validate, update the cycle-time cache (the state
effect of `calcular_tiempo_ciclo` inside validation), recompute the weight caches,
sort, assign, build statistics, and store the new station list on the line.  On the
error path no station list is produced and the caller's line keeps its previous
stations.  (The balancer's write-only `asignaciones` log is not modelled.) -/
def balancear (l : LineaProduccion) :
    Except ValidacionError (List Estacion × Option Estadisticas × LineaProduccion) :=
  match validarEntrada l with
  | .error e => .error e
  | .ok _ =>
    let l1 := calcularTiempoCicloActualiza l
    let l2 := calcularPesosPosicionales l1
    let ords := ordenarTareasPorPeso l2
    let ests := asignarTareasAEstaciones l2 ords
    .ok (ests, generarEstadisticas l2 ests, { l2 with estaciones := ests })

/-- The core task-insertion path: construct (and thereby validate) the task, then
insert it into the line's dict. -/
def agregarTareaValidada (l : LineaProduccion) (id descripcion : String)
    (tiempo : ℚ) (precedencias : List String) : Except ValidacionError LineaProduccion :=
  (crearTarea id descripcion tiempo precedencias).map l.agregarTarea

/-- The precedence edge relation the successor rebuild induces: `u → v` when `u` is
an existing task id and `v` lists `u` among its predecessors. -/
def Edge (l : LineaProduccion) (u v : String) : Prop :=
  u ∈ Ids l ∧ v ∈ sucesores l u

instance (l : LineaProduccion) (u v : String) : Decidable (Edge l u v) := by
  unfold Edge; infer_instance

/-- The graph has a directed precedence cycle. -/
def HayCiclo (l : LineaProduccion) : Prop :=
  ∃ v, Relation.TransGen (Edge l) v v

/-- The graph is acyclic. -/
def EsAciclico (l : LineaProduccion) : Prop :=
  ¬ HayCiclo l

/-- An interaction with a station: one call to `agregar_tarea` or `remover_tarea`. -/
inductive OpEstacion where
  | agregar (t : Tarea)
  | remover (tid : String)

/-- The state effect of one station operation (the returned `Bool` is discarded). -/
def aplicarOp (e : Estacion) : OpEstacion → Estacion
  | .agregar t => (e.agregarTarea t).2
  | .remover tid => (e.removerTarea tid).2

/-- The state after a sequence of station operations. -/
def aplicarOps (e : Estacion) (ops : List OpEstacion) : Estacion :=
  ops.foldl aplicarOp e

/-- Every task handed to `agregar_tarea` satisfies the `Tarea` constructor invariant
of a positive duration. -/
def opPositiva : OpEstacion → Prop
  | .agregar t => 0 < t.tiempo
  | .remover _ => True

instance (op : OpEstacion) : Decidable (opPositiva op) := by
  cases op <;> unfold opPositiva <;> infer_instance

/-- The station invariant of claim C10: the running total is the sum of the assigned
durations and does not exceed the station's capacity. -/
def InvarianteEstacion (e : Estacion) : Prop :=
  e.tiempoTotal = (e.tareasAsignadas.map (·.tiempo)).sum ∧
  cicloLe e.tiempoTotal e.tiempoCicloMax = true

/-- The DFS invariant: every visited node that is off the stack is fully explored, and
nothing reachable from it is on the stack or lies on a cycle. -/
def Seguro (l : LineaProduccion) (vis pila : List String) : Prop :=
  ∀ v ∈ vis, v ∉ pila → ∀ w, Relation.ReflTransGen (Edge l) v w →
    w ∈ vis ∧ w ∉ pila ∧ ¬ Relation.TransGen (Edge l) w w

/-! Concrete lines used by the claim-level theorems, witnesses and counterexamples. -/

/-- The five-task scenario of the specification: A(2), B(1), C(3,[A]), D(2,[B]),
E(1,[C,D]); demand 10, available time 60. -/
def lineaEscenario : LineaProduccion :=
  ⟨[⟨"A", "Tarea A", 2, [], 0⟩, ⟨"B", "Tarea B", 1, [], 0⟩, ⟨"C", "Tarea C", 3, ["A"], 0⟩,
    ⟨"D", "Tarea D", 2, ["B"], 0⟩, ⟨"E", "Tarea E", 1, ["C", "D"], 0⟩], [], 10, 60, 0⟩

/-- The repository's own test fixture (`test_rpw.py`, also `test_core.py` extended):
eight tasks with demand 100 and available time 480, so the cycle time is 4.8 while
tasks A(5), C(7), E(6) and G(8) are individually longer than the cycle time. -/
def lineaTestRepo : LineaProduccion :=
  ⟨[⟨"A", "Preparar material", 5, [], 0⟩, ⟨"B", "Cortar piezas", 3, [], 0⟩,
    ⟨"C", "Ensamblar parte 1", 7, ["A"], 0⟩, ⟨"D", "Ensamblar parte 2", 4, ["B"], 0⟩,
    ⟨"E", "Soldar union", 6, ["C", "D"], 0⟩, ⟨"F", "Pulir superficie", 2, ["E"], 0⟩,
    ⟨"G", "Pintar pieza", 8, ["F"], 0⟩, ⟨"H", "Empacar", 3, ["G"], 0⟩], [], 100, 480, 0⟩

/-- One task of duration 10 with cycle time 6: the task alone exceeds the cycle time. -/
def lineaSobrecarga : LineaProduccion :=
  ⟨[⟨"U", "Unica", 10, [], 0⟩], [], 10, 60, 0⟩

/-- Tasks of durations 7 and 2 with cycle time 6: task A exceeds the cycle time. -/
def lineaConservacion : LineaProduccion :=
  ⟨[⟨"A", "Grande", 7, [], 0⟩, ⟨"B", "Pequena", 2, [], 0⟩], [], 10, 60, 0⟩

/-- A line whose demand is 0 (the configuration claim C8 says must be rejected). -/
def lineaDemandaCero : LineaProduccion :=
  ⟨[⟨"A", "Tarea A", 5, [], 0⟩], [], 0, 60, 0⟩

/-- A two-cycle A ↔ B together with a dangling reference X. -/
def lineaCicloConReferencia : LineaProduccion :=
  ⟨[⟨"A", "Tarea A", 1, ["B", "X"], 0⟩, ⟨"B", "Tarea B", 1, ["A"], 0⟩], [], 10, 60, 0⟩

/-- A pure two-cycle A ↔ B with all references resolving. -/
def lineaCiclo : LineaProduccion :=
  ⟨[⟨"A", "Tarea A", 1, ["B"], 0⟩, ⟨"B", "Tarea B", 1, ["A"], 0⟩], [], 10, 60, 0⟩

/-- A single-task line on which `balancear` succeeds. -/
def lineaSimple : LineaProduccion :=
  ⟨[⟨"A", "Tarea A", 3, [], 0⟩], [], 10, 60, 0⟩

/-- The stations `balancear` produces for `lineaSimple`. -/
def estacionesSimple : List Estacion :=
  [⟨1, [⟨"A", "Tarea A", 3, [], 3⟩], 3, some 6⟩]

/-- The statistics `balancear` produces for `lineaSimple`. -/
def estadisticasSimple : Option Estadisticas :=
  some ⟨1, some 6, 50, 50, 50, 50⟩

/-- The final line state `balancear` produces for `lineaSimple`. -/
def lineaSimpleFinal : LineaProduccion :=
  ⟨[⟨"A", "Tarea A", 3, [], 3⟩], estacionesSimple, 10, 60, 6⟩

/-- A line that already contains a task with id A. -/
def lineaConA : LineaProduccion :=
  ⟨[⟨"A", "Original", 1, [], 0⟩], [], 10, 60, 0⟩

/-- A description of 101 characters, exceeding the 100-character bound of
`Validador.validar_descripcion`. -/
def descripcionLarga : String :=
  String.mk (List.replicate 101 'a')

/-- The task transformation `_calcular_pesos_posicionales` applies: overwrite the
cached weight, leaving every other field unchanged. -/
def pesoMap (w : String → ℚ) (t : Tarea) : Tarea :=
  { t with pesoPosicional := w t.id }

instance (e : Estacion) : Decidable (InvarianteEstacion e) := by
  unfold InvarianteEstacion
  infer_instance

/-- A sample station interaction sequence: add two fitting tasks, remove the first. -/
def opsEjemplo : List OpEstacion :=
  [.agregar ⟨"A", "a", 3, [], 0⟩, .agregar ⟨"B", "b", 4, [], 0⟩, .remover "A"]

/-! General lemmas about the embedded operations. -/

lemma edge_mem_ids {l : LineaProduccion} {u v : String} (h : Edge l u v) : u ∈ Ids l :=
  h.1

lemma find?_eq_none_no_edge {l : LineaProduccion} {tid : String}
    (h : l.tareas.find? (fun t => t.id == tid) = none) : ∀ b, ¬ Edge l tid b := by
  intro b hb
  obtain ⟨t, ht, hid⟩ := List.mem_map.mp hb.1
  have := List.find?_eq_none.mp h t ht
  simp [hid] at this

lemma seguro_cons_sin_aristas {l : LineaProduccion} {tid : String} {vis pila : List String}
    (hpila : tid ∉ pila) (hnoedge : ∀ b, ¬ Edge l tid b) (hs : Seguro l vis pila) :
    Seguro l (tid :: vis) pila := by
  intro v hv hvp w hw
  rcases List.mem_cons.mp hv with rfl | hv
  · rcases Relation.ReflTransGen.cases_head hw with rfl | ⟨c, hc, _⟩
    · refine ⟨List.mem_cons_self _ _, hpila, fun hcyc => ?_⟩
      obtain ⟨b, hb, -⟩ := Relation.TransGen.head'_iff.mp hcyc
      exact hnoedge b hb
    · exact absurd hc (hnoedge c)
  · obtain ⟨h1, h2, h3⟩ := hs v hv hvp w hw
    exact ⟨List.mem_cons_of_mem _ h1, h2, h3⟩

lemma seguro_empuja {l : LineaProduccion} {tid : String} {vis pila : List String}
    (hvis : tid ∉ vis) (hs : Seguro l vis pila) :
    Seguro l (tid :: vis) (tid :: pila) := by
  intro v hv hvp w hw
  have hvne : v ≠ tid := fun h => hvp (h ▸ List.mem_cons_self _ _)
  have hv' : v ∈ vis := by
    rcases List.mem_cons.mp hv with rfl | hv
    · exact absurd rfl hvne
    · exact hv
  have hvp' : v ∉ pila := fun h => hvp (List.mem_cons_of_mem _ h)
  obtain ⟨h1, h2, h3⟩ := hs v hv' hvp' w hw
  have hwne : w ≠ tid := fun h => hvis (h ▸ h1)
  exact ⟨List.mem_cons_of_mem _ h1, by simp [List.mem_cons, hwne, h2], h3⟩

lemma seguro_desempuja {l : LineaProduccion} {tid : String} {vis2 pila : List String}
    (htid2 : tid ∈ vis2) (hpila : tid ∉ pila)
    (hseg2 : Seguro l vis2 (tid :: pila))
    (hsucs : ∀ s ∈ sucesores l tid, s ∈ vis2 ∧ s ∉ tid :: pila) :
    Seguro l vis2 pila := by
  intro v hv hvp w hw
  by_cases hveq : v = tid
  · subst hveq
    rcases Relation.ReflTransGen.cases_head hw with rfl | ⟨b, hb, hbw⟩
    · refine ⟨htid2, hpila, fun hcyc => ?_⟩
      obtain ⟨b, hb, hbt⟩ := Relation.TransGen.head'_iff.mp hcyc
      obtain ⟨hbR, hbp⟩ := hsucs b hb.2
      obtain ⟨-, htn, -⟩ := hseg2 b hbR hbp _ hbt
      exact htn (List.mem_cons_self _ _)
    · obtain ⟨hbR, hbp⟩ := hsucs b hb.2
      obtain ⟨h1, h2, h3⟩ := hseg2 b hbR hbp w hbw
      exact ⟨h1, fun hh => h2 (List.mem_cons_of_mem _ hh), h3⟩
  · have hvp' : v ∉ tid :: pila := by simp [List.mem_cons, hveq, hvp]
    obtain ⟨h1, h2, h3⟩ := hseg2 v hv hvp' w hw
    exact ⟨h1, fun hh => h2 (List.mem_cons_of_mem _ hh), h3⟩

lemma tieneCiclo_cero (l : LineaProduccion) (tids vis pila : List String) :
    tieneCiclo l 0 tids vis pila = (true, vis) := rfl

lemma tieneCiclo_nil (l : LineaProduccion) (fuel : Nat) (vis pila : List String) :
    tieneCiclo l (fuel + 1) [] vis pila = (false, vis) := rfl

lemma tieneCiclo_en_pila (l : LineaProduccion) (fuel : Nat) {tid : String}
    (rest vis : List String) {pila : List String} (h1 : tid ∈ pila) :
    tieneCiclo l (fuel + 1) (tid :: rest) vis pila = (true, vis) := by
  rw [tieneCiclo, if_pos h1]

lemma tieneCiclo_en_vis (l : LineaProduccion) (fuel : Nat) {tid : String}
    (rest : List String) {vis pila : List String} (h1 : tid ∉ pila) (h2 : tid ∈ vis) :
    tieneCiclo l (fuel + 1) (tid :: rest) vis pila = tieneCiclo l fuel rest vis pila := by
  rw [tieneCiclo, if_neg h1, if_pos h2]

lemma tieneCiclo_nuevo_none (l : LineaProduccion) (fuel : Nat) {tid : String}
    (rest : List String) {vis pila : List String} (h1 : tid ∉ pila) (h2 : tid ∉ vis)
    (hfind : l.tareas.find? (fun t => t.id == tid) = none) :
    tieneCiclo l (fuel + 1) (tid :: rest) vis pila =
      tieneCiclo l fuel rest (tid :: vis) pila := by
  rw [tieneCiclo, if_neg h1, if_neg h2, hfind]

lemma tieneCiclo_nuevo_some (l : LineaProduccion) (fuel : Nat) {tid : String}
    (rest : List String) {vis pila : List String} {t0 : Tarea} (h1 : tid ∉ pila)
    (h2 : tid ∉ vis) (hfind : l.tareas.find? (fun t => t.id == tid) = some t0) :
    tieneCiclo l (fuel + 1) (tid :: rest) vis pila =
      (if (tieneCiclo l fuel (sucesores l tid) (tid :: vis) (tid :: pila)).1 then
        (true, (tieneCiclo l fuel (sucesores l tid) (tid :: vis) (tid :: pila)).2)
      else
        tieneCiclo l fuel rest
          (tieneCiclo l fuel (sucesores l tid) (tid :: vis) (tid :: pila)).2 pila) := by
  rw [tieneCiclo, if_neg h1, if_neg h2, hfind]

lemma tieneCiclo_false (l : LineaProduccion) :
    ∀ (fuel : Nat) (tids vis pila : List String),
      (tieneCiclo l fuel tids vis pila).1 = false → Seguro l vis pila →
      vis ⊆ (tieneCiclo l fuel tids vis pila).2 ∧
      Seguro l (tieneCiclo l fuel tids vis pila).2 pila ∧
      ∀ t ∈ tids, t ∈ (tieneCiclo l fuel tids vis pila).2 ∧ t ∉ pila := by
  intro fuel
  induction fuel with
  | zero =>
    intro tids vis pila h _
    rw [tieneCiclo_cero] at h
    simp at h
  | succ fuel ih =>
    intro tids vis pila h hseg
    match tids with
    | [] =>
      rw [tieneCiclo_nil]
      exact ⟨List.Subset.refl _, hseg, by simp⟩
    | tid :: rest =>
      by_cases h1 : tid ∈ pila
      · rw [tieneCiclo_en_pila l fuel rest vis h1] at h
        simp at h
      · by_cases h2 : tid ∈ vis
        · rw [tieneCiclo_en_vis l fuel rest h1 h2] at h ⊢
          obtain ⟨hsub, hseg2, hrest⟩ := ih rest vis pila h hseg
          refine ⟨hsub, hseg2, fun t ht => ?_⟩
          rcases List.mem_cons.mp ht with rfl | ht
          · exact ⟨hsub h2, h1⟩
          · exact hrest t ht
        · cases hfind : l.tareas.find? (fun t => t.id == tid) with
          | none =>
            rw [tieneCiclo_nuevo_none l fuel rest h1 h2 hfind] at h ⊢
            have hseg1 := seguro_cons_sin_aristas h1 (find?_eq_none_no_edge hfind) hseg
            obtain ⟨hsub, hseg2, hrest⟩ := ih rest (tid :: vis) pila h hseg1
            refine ⟨fun x hx => hsub (List.mem_cons_of_mem _ hx), hseg2, fun t ht => ?_⟩
            rcases List.mem_cons.mp ht with rfl | ht
            · exact ⟨hsub (List.mem_cons_self _ _), h1⟩
            · exact hrest t ht
          | some t0 =>
            rw [tieneCiclo_nuevo_some l fuel rest h1 h2 hfind] at h ⊢
            by_cases hr : (tieneCiclo l fuel (sucesores l tid) (tid :: vis) (tid :: pila)).1 = true
            · rw [if_pos hr] at h
              simp at h
            · have hr2 : (tieneCiclo l fuel (sucesores l tid) (tid :: vis) (tid :: pila)).1 = false :=
                Bool.eq_false_iff.mpr hr
            
              rw [if_neg hr] at h ⊢
              obtain ⟨hsub1, hseg2, hsucs⟩ :=
                ih (sucesores l tid) (tid :: vis) (tid :: pila) hr2 (seguro_empuja h2 hseg)
              have htid2 : tid ∈ (tieneCiclo l fuel (sucesores l tid) (tid :: vis) (tid :: pila)).2 :=
                hsub1 (List.mem_cons_self _ _)
              have hseg3 := seguro_desempuja htid2 h1 hseg2 (fun s hs => hsucs s hs)
              obtain ⟨hsub2, hseg4, hrest⟩ := ih rest _ pila h hseg3
              refine ⟨fun x hx => hsub2 (hsub1 (List.mem_cons_of_mem _ hx)), hseg4, fun t ht => ?_⟩
              rcases List.mem_cons.mp ht with rfl | ht
              · exact ⟨hsub2 htid2, h1⟩
              · exact hrest t ht

lemma detectarCiclosAux_false (l : LineaProduccion) :
    ∀ (tids vis : List String),
      (detectarCiclosAux l tids vis).1 = false → Seguro l vis [] →
      vis ⊆ (detectarCiclosAux l tids vis).2 ∧
      Seguro l (detectarCiclosAux l tids vis).2 [] ∧
      ∀ t ∈ tids, t ∈ (detectarCiclosAux l tids vis).2 := by
  intro tids
  induction tids with
  | nil =>
    intro vis h hseg
    exact ⟨List.Subset.refl _, hseg, by simp⟩
  | cons tid rest ih =>
    intro vis h hseg
    by_cases h2 : tid ∈ vis
    · rw [detectarCiclosAux, if_pos h2] at h ⊢
      obtain ⟨hsub, hseg2, hrest⟩ := ih vis h hseg
      refine ⟨hsub, hseg2, fun t ht => ?_⟩
      rcases List.mem_cons.mp ht with rfl | ht
      · exact hsub h2
      · exact hrest t ht
    · rw [detectarCiclosAux, if_neg h2] at h ⊢
      by_cases hr : (tieneCiclo l (combustibleDFS l) [tid] vis []).1 = true
      · rw [if_pos hr] at h
        simp at h
      · have hr2 : (tieneCiclo l (combustibleDFS l) [tid] vis []).1 = false :=
          Bool.eq_false_iff.mpr hr
        rw [if_neg hr] at h ⊢
        obtain ⟨hsub1, hseg2, hone⟩ := tieneCiclo_false l (combustibleDFS l) [tid] vis [] hr2 hseg
        obtain ⟨hsub2, hseg3, hrest⟩ := ih _ h hseg2
        refine ⟨fun x hx => hsub2 (hsub1 hx), hseg3, fun t ht => ?_⟩
        rcases List.mem_cons.mp ht with rfl | ht
        · exact hsub2 (hone t (List.mem_cons_self _ _)).1
        · exact hrest t ht

/-- If the precedence graph has a directed cycle, `detectar_ciclos` reports it. -/
theorem detectarCiclos_completo (l : LineaProduccion) (h : HayCiclo l) :
    detectarCiclos l = true := by
  by_contra hDet
  have hfalse : (detectarCiclosAux l (Ids l) []).1 = false :=
    Bool.eq_false_iff.mpr hDet
  have hseg0 : Seguro l [] [] := fun v hv => absurd hv (List.not_mem_nil v)
  obtain ⟨-, hseg, hids⟩ := detectarCiclosAux_false l (Ids l) [] hfalse hseg0
  obtain ⟨v, hv⟩ := h
  obtain ⟨b, hb, -⟩ := Relation.TransGen.head'_iff.mp hv
  have hvIds : v ∈ Ids l := hb.1
  obtain ⟨-, -, hnc⟩ := hseg v (hids v hvIds) (List.not_mem_nil v) v Relation.ReflTransGen.refl
  exact hnc hv

lemma find?_id_unico :
    ∀ (ts : List Tarea) (t : Tarea), (ts.map (·.id)).Nodup → t ∈ ts →
      ts.find? (fun x => x.id == t.id) = some t := by
  intro ts
  induction ts with
  | nil => intro t _ ht; exact absurd ht (List.not_mem_nil t)
  | cons x xs ih =>
    intro t hnd ht
    rw [List.map_cons] at hnd
    obtain ⟨hx, hnd2⟩ := List.nodup_cons.mp hnd
    rcases List.mem_cons.mp ht with rfl | ht
    · exact List.find?_cons_of_pos _ (by simp)
    · have hne : x.id ≠ t.id := fun hh => hx (hh ▸ List.mem_map_of_mem (·.id) ht)
      rw [List.find?_cons_of_neg _ (by simpa using hne)]
      exact ih t hnd2 ht

lemma existe_rango (l : LineaProduccion) (hac : EsAciclico l) :
    ∃ rango : String → Nat,
      (∀ u v, Edge l u v → rango v < rango u) ∧ ∀ v, rango v ≤ l.tareas.length := by
  classical
  refine ⟨fun v => ((Ids l).toFinset.filter (fun w => Relation.ReflTransGen (Edge l) v w)).card,
    ?_, ?_⟩
  · intro u v he
    apply Finset.card_lt_card
    constructor
    · intro w hw
      obtain ⟨hw1, hw2⟩ := Finset.mem_filter.mp hw
      exact Finset.mem_filter.mpr ⟨hw1, Relation.ReflTransGen.head he hw2⟩
    · intro hcontra
      have hu : u ∈ (Ids l).toFinset.filter (fun w => Relation.ReflTransGen (Edge l) u w) :=
        Finset.mem_filter.mpr ⟨List.mem_toFinset.mpr he.1, Relation.ReflTransGen.refl⟩
      have hu2 := hcontra hu
      obtain ⟨-, hvu⟩ := Finset.mem_filter.mp hu2
      exact hac ⟨u, Relation.TransGen.head' he hvu⟩
  · intro v
    calc ((Ids l).toFinset.filter (fun w => Relation.ReflTransGen (Edge l) v w)).card
        ≤ (Ids l).toFinset.card := Finset.card_filter_le _ _
      _ ≤ (Ids l).length := (Ids l).toFinset_card_le
      _ = l.tareas.length := List.length_map _ _

lemma pesoFuel_estable (l : LineaProduccion) (rango : String → Nat)
    (hrango : ∀ u v, Edge l u v → rango v < rango u) :
    ∀ (n : Nat) (v : String), rango v = n → ∀ (f1 f2 : Nat), rango v < f1 → rango v < f2 →
      pesoFuel l f1 v = pesoFuel l f2 v := by
  intro n
  induction n using Nat.strong_induction_on with
  | _ n ih =>
    intro v hv f1 f2 h1 h2
    match f1, h1 with
    | g1 + 1, h1 =>
    match f2, h2 with
    | g2 + 1, h2 =>
    cases hfind : l.tareas.find? (fun t => t.id == v) with
    | none => simp only [pesoFuel, hfind]
    | some t =>
      simp only [pesoFuel, hfind]
      congr 1
      congr 1
      apply List.map_congr_left
      intro s hs
      have hvIds : v ∈ Ids l := by
        have hmem := List.mem_of_find?_eq_some hfind
        have hpred := List.find?_some hfind
        exact List.mem_map.mpr ⟨t, hmem, by simpa using hpred⟩
      have hedge : Edge l v s := ⟨hvIds, hs⟩
      have hlt : rango s < rango v := hrango v s hedge
      exact ih (rango s) (hv ▸ hlt) s rfl g1 g2 (by omega) (by omega)

/-- Claim C4: on an acyclic task graph (with the dict invariant of unique task ids),
after weight computation every task t satisfies
weight(t) = duration(t) + sum of weight(s) over the direct successors s of t. -/
theorem pesoPosicional_ecuacion (l : LineaProduccion) (hnd : (Ids l).Nodup)
    (hac : EsAciclico l) :
    ∀ t ∈ l.tareas, pesoPosicional l t.id =
      t.tiempo + ((sucesores l t.id).map (pesoPosicional l)).sum := by
  intro t ht
  obtain ⟨rango, hrango, hcota⟩ := existe_rango l hac
  have hvIds : t.id ∈ Ids l := List.mem_map_of_mem (·.id) ht
  calc pesoPosicional l t.id
      = pesoFuel l (l.tareas.length + 1) t.id := rfl
    _ = t.tiempo + ((sucesores l t.id).map (pesoFuel l l.tareas.length)).sum := by
        rw [pesoFuel, find?_id_unico l.tareas t hnd ht]
    _ = t.tiempo + ((sucesores l t.id).map (pesoPosicional l)).sum := by
        congr 1
        congr 1
        apply List.map_congr_left
        intro s hs
        have hlt : rango s < rango t.id := hrango t.id s ⟨hvIds, hs⟩
        have hle := hcota t.id
        exact pesoFuel_estable l rango hrango (rango s) s rfl _ _ (by omega) (by omega)


section PesoCongruencia

variable {l1 l2 : LineaProduccion} {w : String → ℚ}

lemma ids_pesoMap (h : l2.tareas = l1.tareas.map (pesoMap w)) : Ids l2 = Ids l1 := by
  unfold Ids
  rw [h, List.map_map]
  rfl

lemma sucesores_pesoMap (h : l2.tareas = l1.tareas.map (pesoMap w)) (u : String) :
    sucesores l2 u = sucesores l1 u := by
  unfold sucesores
  rw [h, List.filter_map, List.map_map]
  rfl

lemma find?_pesoMap (h : l2.tareas = l1.tareas.map (pesoMap w)) (tid : String) :
    l2.tareas.find? (fun t => t.id == tid) =
      (l1.tareas.find? (fun t => t.id == tid)).map (pesoMap w) := by
  rw [h, List.find?_map]
  rfl

lemma pesoFuel_pesoMap (h : l2.tareas = l1.tareas.map (pesoMap w)) :
    ∀ (fuel : Nat) (tid : String), pesoFuel l2 fuel tid = pesoFuel l1 fuel tid := by
  intro fuel
  induction fuel with
  | zero => intro tid; rfl
  | succ fuel ih =>
    intro tid
    rw [pesoFuel, pesoFuel, find?_pesoMap h, sucesores_pesoMap h]
    cases hfind : l1.tareas.find? (fun t => t.id == tid) with
    | none => rfl
    | some t =>
      simp only [Option.map_some]
      show (pesoMap w t).tiempo + _ = _
      congr 1
      congr 1
      apply List.map_congr_left
      intro s _
      exact ih s

lemma tieneCiclo_pesoMap (h : l2.tareas = l1.tareas.map (pesoMap w)) :
    ∀ (fuel : Nat) (tids vis pila : List String),
      tieneCiclo l2 fuel tids vis pila = tieneCiclo l1 fuel tids vis pila := by
  intro fuel
  induction fuel with
  | zero => intro tids vis pila; rfl
  | succ fuel ih =>
    intro tids vis pila
    match tids with
    | [] => rfl
    | tid :: rest =>
      by_cases h1 : tid ∈ pila
      · rw [tieneCiclo_en_pila l2 fuel rest vis h1, tieneCiclo_en_pila l1 fuel rest vis h1]
      · by_cases h2 : tid ∈ vis
        · rw [tieneCiclo_en_vis l2 fuel rest h1 h2, tieneCiclo_en_vis l1 fuel rest h1 h2]
          exact ih rest vis pila
        · cases hfind : l1.tareas.find? (fun t => t.id == tid) with
          | none =>
            have hfind2 : l2.tareas.find? (fun t => t.id == tid) = none := by
              rw [find?_pesoMap h, hfind]; rfl
            rw [tieneCiclo_nuevo_none l2 fuel rest h1 h2 hfind2,
              tieneCiclo_nuevo_none l1 fuel rest h1 h2 hfind]
            exact ih rest (tid :: vis) pila
          | some t0 =>
            have hfind2 : l2.tareas.find? (fun t => t.id == tid) = some (pesoMap w t0) := by
              rw [find?_pesoMap h, hfind]; rfl
            rw [tieneCiclo_nuevo_some l2 fuel rest h1 h2 hfind2,
              tieneCiclo_nuevo_some l1 fuel rest h1 h2 hfind,
              sucesores_pesoMap h, ih (sucesores l1 tid) (tid :: vis) (tid :: pila)]
            by_cases hr : (tieneCiclo l1 fuel (sucesores l1 tid) (tid :: vis) (tid :: pila)).1 = true
            · rw [if_pos hr, if_pos hr]
            · rw [if_neg hr, if_neg hr]
              exact ih rest _ pila

lemma detectarCiclosAux_pesoMap (h : l2.tareas = l1.tareas.map (pesoMap w)) :
    ∀ (tids vis : List String),
      detectarCiclosAux l2 tids vis = detectarCiclosAux l1 tids vis := by
  intro tids
  have hlen : l2.tareas.length = l1.tareas.length := by rw [h, List.length_map]
  induction tids with
  | nil => intro vis; rfl
  | cons tid rest ih =>
    intro vis
    by_cases h2 : tid ∈ vis
    · rw [detectarCiclosAux, detectarCiclosAux, if_pos h2, if_pos h2]
      exact ih vis
    · have hcomb : combustibleDFS l2 = combustibleDFS l1 := by
        unfold combustibleDFS
        rw [hlen]
      rw [detectarCiclosAux, detectarCiclosAux, if_neg h2, if_neg h2]
      simp only [hcomb, tieneCiclo_pesoMap h]
      by_cases hr : (tieneCiclo l1 (combustibleDFS l1) [tid] vis []).1 = true
      · rw [if_pos hr, if_pos hr]
      · rw [if_neg hr, if_neg hr]
        exact ih _

lemma detectarCiclos_pesoMap (h : l2.tareas = l1.tareas.map (pesoMap w)) :
    detectarCiclos l2 = detectarCiclos l1 := by
  unfold detectarCiclos
  rw [detectarCiclosAux_pesoMap h, ids_pesoMap h]

lemma validarPrecedencias_pesoMap (h : l2.tareas = l1.tareas.map (pesoMap w)) :
    validarPrecedencias l2 = validarPrecedencias l1 := by
  unfold validarPrecedencias
  rw [h, List.flatMap_map, ids_pesoMap h]
  rfl

lemma obtenerTiempoTotalTareas_pesoMap (h : l2.tareas = l1.tareas.map (pesoMap w)) :
    obtenerTiempoTotalTareas l2 = obtenerTiempoTotalTareas l1 := by
  unfold obtenerTiempoTotalTareas
  rw [h, List.map_map]
  rfl

end PesoCongruencia

lemma balancear_de_error {l : LineaProduccion} {e : ValidacionError}
    (h : validarEntrada l = .error e) : balancear l = .error e := by
  unfold balancear
  rw [h]

lemma balancear_de_ok {l : LineaProduccion} (h : validarEntrada l = .ok ()) :
    balancear l = .ok
      (asignarTareasAEstaciones (calcularPesosPosicionales (calcularTiempoCicloActualiza l))
        (ordenarTareasPorPeso (calcularPesosPosicionales (calcularTiempoCicloActualiza l))),
       generarEstadisticas (calcularPesosPosicionales (calcularTiempoCicloActualiza l))
        (asignarTareasAEstaciones (calcularPesosPosicionales (calcularTiempoCicloActualiza l))
          (ordenarTareasPorPeso (calcularPesosPosicionales (calcularTiempoCicloActualiza l)))),
       { calcularPesosPosicionales (calcularTiempoCicloActualiza l) with
          estaciones :=
            asignarTareasAEstaciones (calcularPesosPosicionales (calcularTiempoCicloActualiza l))
              (ordenarTareasPorPeso (calcularPesosPosicionales (calcularTiempoCicloActualiza l))) }) := by
  unfold balancear
  rw [h]

lemma calcularTiempoCicloActualiza_tareas (l : LineaProduccion) :
    (calcularTiempoCicloActualiza l).tareas = l.tareas := by
  unfold calcularTiempoCicloActualiza
  split <;> rfl

lemma calcularTiempoCicloActualiza_demanda (l : LineaProduccion) :
    (calcularTiempoCicloActualiza l).demandaDiaria = l.demandaDiaria := by
  unfold calcularTiempoCicloActualiza
  split <;> rfl

lemma calcularTiempoCicloActualiza_disponible (l : LineaProduccion) :
    (calcularTiempoCicloActualiza l).tiempoDisponible = l.tiempoDisponible := by
  unfold calcularTiempoCicloActualiza
  split <;> rfl

lemma calcularTiempoCicloActualiza_eq_self (l : LineaProduccion)
    (hc : l.demandaDiaria ≤ 0 ∨
      l.tiempoCicloCache = l.tiempoDisponible / (l.demandaDiaria : ℚ)) :
    calcularTiempoCicloActualiza l = l := by
  unfold calcularTiempoCicloActualiza
  by_cases hd : l.demandaDiaria ≤ 0
  · rw [if_pos hd]
  · rw [if_neg hd]
    rcases hc with hc | hc
    · exact absurd hc hd
    · rw [← hc]

lemma calcularPesosPosicionales_eq_self (l : LineaProduccion)
    (h : ∀ t ∈ l.tareas, t.pesoPosicional = pesoPosicional l t.id) :
    calcularPesosPosicionales l = l := by
  unfold calcularPesosPosicionales
  have heq : l.tareas.map (fun t => { t with pesoPosicional := pesoPosicional l t.id })
      = l.tareas := by
    conv_rhs => rw [← List.map_id l.tareas]
    apply List.map_congr_left
    intro t ht
    rw [← h t ht]
    rfl
  rw [heq]

lemma isEmpty_pesoMap {l1 l2 : LineaProduccion} {w : String → ℚ}
    (h : l2.tareas = l1.tareas.map (pesoMap w)) :
    l2.tareas.isEmpty = l1.tareas.isEmpty := by
  rw [h]
  cases l1.tareas <;> rfl

lemma calcularTiempoCiclo_congr {l1 l2 : LineaProduccion}
    (hdem : l2.demandaDiaria = l1.demandaDiaria)
    (hdisp : l2.tiempoDisponible = l1.tiempoDisponible) :
    calcularTiempoCiclo l2 = calcularTiempoCiclo l1 := by
  unfold calcularTiempoCiclo
  rw [hdem, hdisp]

lemma validarEntrada_congr {l1 l2 : LineaProduccion} {w : String → ℚ}
    (hT : l2.tareas = l1.tareas.map (pesoMap w))
    (hdem : l2.demandaDiaria = l1.demandaDiaria)
    (hdisp : l2.tiempoDisponible = l1.tiempoDisponible) :
    validarEntrada l2 = validarEntrada l1 := by
  unfold validarEntrada
  rw [isEmpty_pesoMap hT, validarPrecedencias_pesoMap hT, detectarCiclos_pesoMap hT,
    calcularTiempoCiclo_congr hdem hdisp]

/-- Claim C5: two successive `balancear` calls with no change in between produce
identical station lists (same stations, same tasks in the same order, same totals)
and identical statistics, because the weight caches and the station list are reset
and rebuilt from the unchanged task graph: re-running on the state a successful run
produced yields exactly the same result. -/
theorem balancear_idempotente (l : LineaProduccion) (ests : List Estacion)
    (stats : Option Estadisticas) (lfin : LineaProduccion)
    (h : balancear l = .ok (ests, stats, lfin)) :
    balancear lfin = .ok (ests, stats, lfin) := by
  cases hval : validarEntrada l with
  | error e =>
    rw [balancear_de_error hval] at h
    exact absurd h (by simp)
  | ok u =>
    cases u
    rw [balancear_de_ok hval] at h
    rw [Except.ok.injEq, Prod.mk.injEq, Prod.mk.injEq] at h
    obtain ⟨hE, hS, hL⟩ := h
    set l1 := calcularTiempoCicloActualiza l with hl1
    set w := pesoPosicional l1 with hw
    have hT : lfin.tareas = l.tareas.map (pesoMap w) := by
      rw [← hL]
      show (calcularPesosPosicionales l1).tareas = _
      unfold calcularPesosPosicionales
      rw [calcularTiempoCicloActualiza_tareas]
      rfl
    have hTl1 : lfin.tareas = l1.tareas.map (pesoMap w) := by
      rw [hT, calcularTiempoCicloActualiza_tareas]
    have hdem : lfin.demandaDiaria = l.demandaDiaria := by
      rw [← hL]
      show (calcularPesosPosicionales l1).demandaDiaria = _
      rw [show (calcularPesosPosicionales l1).demandaDiaria = l1.demandaDiaria from rfl,
        calcularTiempoCicloActualiza_demanda]
    have hdisp : lfin.tiempoDisponible = l.tiempoDisponible := by
      rw [← hL]
      show (calcularPesosPosicionales l1).tiempoDisponible = _
      rw [show (calcularPesosPosicionales l1).tiempoDisponible = l1.tiempoDisponible from rfl,
        calcularTiempoCicloActualiza_disponible]
    have hvalf : validarEntrada lfin = .ok () := by
      rw [validarEntrada_congr hT hdem hdisp, hval]
    have hcache : lfin.tiempoCicloCache = l1.tiempoCicloCache := by
      rw [← hL]
      rfl
    have hA2 : calcularTiempoCicloActualiza lfin = lfin := by
      apply calcularTiempoCicloActualiza_eq_self
      by_cases hd : l.demandaDiaria ≤ 0
      · left
        rw [hdem]
        exact hd
      · right
        rw [hcache, hdem, hdisp, hl1]
        unfold calcularTiempoCicloActualiza
        rw [if_neg hd]
    have hlenf : lfin.tareas.length = l1.tareas.length := by
      rw [hTl1, List.length_map]
    have hwf : ∀ tid, pesoPosicional lfin tid = w tid := by
      intro tid
      unfold pesoPosicional
      rw [hlenf]
      exact pesoFuel_pesoMap hTl1 _ tid
    have hP2 : calcularPesosPosicionales lfin = lfin := by
      apply calcularPesosPosicionales_eq_self
      intro t ht
      rw [hwf t.id]
      rw [hTl1] at ht
      obtain ⟨t0, _, rfl⟩ := List.mem_map.mp ht
      rfl
    rw [balancear_de_ok hvalf, hA2, hP2, ← hL]
    rw [← hE, ← hS]
    rfl

lemma hayCiclo_tareas_ne {l : LineaProduccion} (h : HayCiclo l) :
    l.tareas.isEmpty = false := by
  obtain ⟨v, hv⟩ := h
  obtain ⟨b, hb, -⟩ := Relation.TransGen.head'_iff.mp hv
  obtain ⟨t, ht, -⟩ := List.mem_map.mp hb.1
  cases hL : l.tareas with
  | nil => rw [hL] at ht; exact absurd ht (List.not_mem_nil t)
  | cons x xs => rfl

/-- Claim C7 (amended): for every task graph whose precedence references all resolve
and which contains a directed precedence cycle, `detectar_ciclos` returns `true` and
`balancear` fails with the cycle-detection `ValidacionError` before creating any
station, so the line's previously stored station list is untouched. -/
theorem ciclo_detectado_y_error (l : LineaProduccion)
    (href : validarPrecedencias l = []) (hcyc : HayCiclo l) :
    detectarCiclos l = true ∧ balancear l = .error .ciclosDetectados := by
  have hdet := detectarCiclos_completo l hcyc
  refine ⟨hdet, balancear_de_error ?_⟩
  have hne := hayCiclo_tareas_ne hcyc
  simp [validarEntrada, hne, href, hdet]

/-- Claim C8 (amended): for every line with demand ≤ 0 the cycle-time computation
returns the float infinity instead of failing (and the balancer's cycle-time
validity check then passes); for every line with demand > 0 it returns
available time / demand. -/
theorem tiempoCiclo_comportamiento (l : LineaProduccion) :
    (l.demandaDiaria ≤ 0 → calcularTiempoCiclo l = none ∧
      cicloNoPositivo (calcularTiempoCiclo l) = false) ∧
    (0 < l.demandaDiaria →
      calcularTiempoCiclo l = some (l.tiempoDisponible / (l.demandaDiaria : ℚ))) := by
  constructor
  · intro h
    unfold calcularTiempoCiclo
    rw [if_pos h]
    exact ⟨rfl, rfl⟩
  · intro h
    unfold calcularTiempoCiclo
    rw [if_neg (by omega)]

/-- Claim C9 (amended): adding a task through the core path (`Tarea` construction
plus `LineaProduccion.agregar_tarea`) fails with `ValidacionError` exactly when the
id is empty, the description is empty, or the duration is ≤ 0 — in which case no
modified line is produced, leaving the task set unchanged; otherwise the task is
inserted, silently replacing any existing task with the same id (no duplicate check
and no description length bound exist on this path). -/
theorem agregarTarea_validacion (l : LineaProduccion) (id descripcion : String)
    (tiempo : ℚ) (precedencias : List String) :
    ((id = "" ∨ descripcion = "" ∨ tiempo ≤ 0) →
      ∃ e, agregarTareaValidada l id descripcion tiempo precedencias = .error e) ∧
    (id ≠ "" → descripcion ≠ "" → 0 < tiempo →
      agregarTareaValidada l id descripcion tiempo precedencias =
        .ok (l.agregarTarea ⟨id, descripcion, tiempo, precedencias.eraseDups, 0⟩)) := by
  constructor
  · intro h
    unfold agregarTareaValidada crearTarea
    by_cases h1 : id = ""
    · exact ⟨.idVacio, by rw [if_pos h1]; rfl⟩
    · by_cases h2 : descripcion = ""
      · exact ⟨.descripcionVacia, by rw [if_neg h1, if_pos h2]; rfl⟩
      · have h3 : tiempo ≤ 0 := by tauto
        exact ⟨.tiempoNoPositivo, by rw [if_neg h1, if_neg h2, if_pos h3]; rfl⟩
  · intro h1 h2 h3
    unfold agregarTareaValidada crearTarea
    rw [if_neg h1, if_neg h2, if_neg (by exact not_le.mpr h3)]
    rfl

lemma cicloLe_mono {x y : ℚ} {c : Option ℚ} (hxy : x ≤ y) (h : cicloLe y c = true) :
    cicloLe x c = true := by
  cases c with
  | none => rfl
  | some q =>
    simp only [cicloLe, decide_eq_true_eq] at h ⊢
    exact le_trans hxy h

lemma removerDeLista_spec :
    ∀ (ts : List Tarea) (tid : String) (q : ℚ) (ts' : List Tarea),
      removerDeLista tid ts = some (q, ts') →
      (ts'.map (·.tiempo)).sum = (ts.map (·.tiempo)).sum - q ∧
      (∀ t ∈ ts', t ∈ ts) ∧ ∃ t ∈ ts, t.tiempo = q := by
  intro ts
  induction ts with
  | nil => intro tid q ts' h; exact absurd h (by simp [removerDeLista])
  | cons x xs ih =>
    intro tid q ts' h
    unfold removerDeLista at h
    by_cases hx : x.id = tid
    · rw [if_pos hx] at h
      obtain ⟨h1, h2⟩ := Prod.mk.injEq .. ▸ Option.some.inj h
      subst h1
      subst h2
      refine ⟨by rw [List.map_cons, List.sum_cons]; ring, fun t ht => List.mem_cons_of_mem _ ht,
        ⟨x, List.mem_cons_self _ _, rfl⟩⟩
    · rw [if_neg hx] at h
      cases hrec : removerDeLista tid xs with
      | none => rw [hrec] at h; exact absurd h (by simp)
      | some p =>
        rw [hrec] at h
        obtain ⟨q0, xs'⟩ := p
        obtain ⟨h1, h2⟩ := Prod.mk.injEq .. ▸ Option.some.inj (by simpa using h)
        obtain ⟨hsum, hmem, t0, ht0, htq⟩ := ih tid q0 xs' hrec
        subst h1
        rw [← h2]
        refine ⟨by rw [List.map_cons, List.map_cons, List.sum_cons, List.sum_cons, hsum]; ring,
          fun t ht => ?_, ⟨t0, List.mem_cons_of_mem _ ht0, htq⟩⟩
        rcases List.mem_cons.mp ht with rfl | ht
        · exact List.mem_cons_self _ _
        · exact List.mem_cons_of_mem _ (hmem t ht)

lemma agregarTarea_si (e : Estacion) (t : Tarea) (hp : e.puedeAgregarTarea t = true) :
    e.agregarTarea t = (true, { e with tareasAsignadas := e.tareasAsignadas ++ [t], tiempoTotal := e.tiempoTotal + t.tiempo }) := by
  unfold Estacion.agregarTarea
  rw [if_pos hp]

lemma agregarTarea_no (e : Estacion) (t : Tarea) (hp : e.puedeAgregarTarea t = false) :
    e.agregarTarea t = (false, e) := by
  unfold Estacion.agregarTarea
  rw [if_neg (by rw [hp]; exact Bool.false_ne_true)]

lemma aplicarOps_invariante :
    ∀ (ops : List OpEstacion) (e : Estacion),
      InvarianteEstacion e → (∀ t ∈ e.tareasAsignadas, 0 < t.tiempo) →
      (∀ op ∈ ops, opPositiva op) →
      InvarianteEstacion (aplicarOps e ops) ∧
        ∀ t ∈ (aplicarOps e ops).tareasAsignadas, 0 < t.tiempo := by
  intro ops
  induction ops with
  | nil => intro e h1 h2 _; exact ⟨h1, h2⟩
  | cons op rest ih =>
    intro e h1 h2 hops
    have hrest : ∀ o ∈ rest, opPositiva o := fun o ho => hops o (List.mem_cons_of_mem _ ho)
    have hop : opPositiva op := hops op (List.mem_cons_self _ _)
    obtain ⟨hsum, hle⟩ := h1
    have hpaso : InvarianteEstacion (aplicarOp e op) ∧
        ∀ t ∈ (aplicarOp e op).tareasAsignadas, 0 < t.tiempo := by
      cases op with
      | agregar t =>
        by_cases hp : e.puedeAgregarTarea t = true
        · have hap : aplicarOp e (.agregar t) = { e with
              tareasAsignadas := e.tareasAsignadas ++ [t],
              tiempoTotal := e.tiempoTotal + t.tiempo } := by
            show (e.agregarTarea t).2 = _
            rw [agregarTarea_si e t hp]
          rw [hap]
          refine ⟨⟨?_, hp⟩, ?_⟩
          · simp [hsum]
          · intro s hs
            rcases List.mem_append.mp hs with hs | hs
            · exact h2 s hs
            · rw [List.mem_singleton.mp hs]
              exact hop
        · have hap : aplicarOp e (.agregar t) = e := by
            show (e.agregarTarea t).2 = _
            rw [agregarTarea_no e t (Bool.eq_false_iff.mpr hp)]
          rw [hap]
          exact ⟨⟨hsum, hle⟩, h2⟩
      | remover tid =>
        cases hrem : removerDeLista tid e.tareasAsignadas with
        | none =>
          have hap : aplicarOp e (.remover tid) = e := by
            show (e.removerTarea tid).2 = _
            unfold Estacion.removerTarea
            rw [hrem]
          rw [hap]
          exact ⟨⟨hsum, hle⟩, h2⟩
        | some p =>
          obtain ⟨q, ts'⟩ := p
          obtain ⟨hsum2, hmem, t0, ht0, htq⟩ := removerDeLista_spec _ tid q ts' hrem
          have hq : 0 < q := htq ▸ h2 t0 ht0
          have hap : aplicarOp e (.remover tid) = { e with tareasAsignadas := ts', tiempoTotal := e.tiempoTotal - q } := by
            show (e.removerTarea tid).2 = _
            unfold Estacion.removerTarea
            rw [hrem]
          rw [hap]
          refine ⟨⟨by simp only [hsum2, ← hsum], ?_⟩, fun s hs => h2 s (hmem s hs)⟩
          exact cicloLe_mono (show e.tiempoTotal - q ≤ e.tiempoTotal by linarith) hle
    exact ih (aplicarOp e op) hpaso.1 hpaso.2 hrest

/-- Claim C10 (amended): for every station freshly constructed with a nonnegative
`tiempo_ciclo_max` and every sequence of `agregar_tarea` / `remover_tarea`
operations whose tasks satisfy the `Tarea` constructor invariant of positive
duration, `tiempo_total` always equals the sum of the durations of the tasks in
`tareas_asignadas` and never exceeds `tiempo_ciclo_max`; moreover `agregar_tarea`
returns `False` and leaves the station completely unchanged whenever adding the
task would exceed `tiempo_ciclo_max`. -/
theorem estacion_invariante (numero : Nat) (capacidad : Option ℚ)
    (ops : List OpEstacion) (hc : cicloLe 0 capacidad = true)
    (hops : ∀ op ∈ ops, opPositiva op) :
    InvarianteEstacion (aplicarOps (Estacion.nueva numero capacidad) ops) ∧
    ∀ (e : Estacion) (t : Tarea), e.puedeAgregarTarea t = false →
      e.agregarTarea t = (false, e) := by
  constructor
  · exact (aplicarOps_invariante ops (Estacion.nueva numero capacidad)
      ⟨rfl, hc⟩ (by intro t ht; exact absurd ht (List.not_mem_nil t)) hops).1
  · intro e t hp
    unfold Estacion.agregarTarea
    rw [if_neg (by rw [hp]; exact Bool.false_ne_true)]

section Concretos

attribute [local semireducible] Rat.mul Rat.add Rat.sub Rat.inv

/-- Claim C3: on the concrete scenario (A 2, B 1, C 3 after A, D 2 after B, E 1
after C and D; demand 10, available time 60) the cycle time is 6, the positional
weights are A 6, B 4, C 4, D 3, E 1, the rank order is A, B, C, D, E (B before C by
the fewer-predecessors tie-break), and `balancear` yields exactly two stations:
station 1 = A, B, C with total 6 (utilization 100) and station 2 = D, E with total 3
(utilization 50), with line efficiency 75. -/
theorem escenario_resultado :
    calcularTiempoCiclo lineaEscenario = some 6 ∧
    ((calcularPesosPosicionales (calcularTiempoCicloActualiza lineaEscenario)).tareas.map
      (fun t => (t.id, t.pesoPosicional)))
      = [("A", 6), ("B", 4), ("C", 4), ("D", 3), ("E", 1)] ∧
    ((ordenarTareasPorPeso
        (calcularPesosPosicionales (calcularTiempoCicloActualiza lineaEscenario))).map (·.id))
      = ["A", "B", "C", "D", "E"] ∧
    (balancear lineaEscenario).toOption.map (fun p => p.1.map Estacion.obtenerIdsTareas)
      = some [["A", "B", "C"], ["D", "E"]] ∧
    (balancear lineaEscenario).toOption.map (fun p => p.1.map (·.tiempoTotal))
      = some [6, 3] ∧
    (balancear lineaEscenario).toOption.map (fun p => p.1.map Estacion.calcularUtilizacion)
      = some [100, 50] ∧
    (balancear lineaEscenario).toOption.map (fun p => p.2.1.map (·.numeroEstaciones))
      = some (some 2) ∧
    (balancear lineaEscenario).toOption.map (fun p => p.2.1.map (·.eficienciaLinea))
      = some (some 75) := by
  refine ⟨by decide, by decide, by decide, by decide, by decide, by decide, by decide, by decide⟩

/-- Claim C1 (failing-input evaluation): on the repository's own test fixture, whose
durations 5, 7, 6 and 8 exceed the cycle time 4.8, `balancear` returns successfully
with only tasks B and D placed — the other six tasks appear in no station, so the
claim that every task of an acyclic, reference-consistent graph appears in exactly
one station is violated by the code (the repository's own tests assert exactly this
and fail on this fixture). -/
theorem testRepo_tareas_perdidas :
    Ids lineaTestRepo = ["A", "B", "C", "D", "E", "F", "G", "H"] ∧
    (balancear lineaTestRepo).toOption.map (fun p => p.1.map Estacion.obtenerIdsTareas)
      = some [["B"], ["D"]] := by
  refine ⟨by decide, by decide⟩

/-- Claim C2 (failing-input evaluation): a single task of duration 10 with cycle
time 6 can never fit; instead of failing with an infeasible-assignment error naming
the stuck task, `balancear` returns successfully with one empty station and the
task assigned nowhere. -/
theorem sobrecarga_sin_error :
    (balancear lineaSobrecarga).isOk = true ∧
    (balancear lineaSobrecarga).toOption.map (fun p => p.1.map Estacion.obtenerIdsTareas)
      = some [[]] := by
  refine ⟨by decide, by decide⟩

/-- Claim C6 (failing-input evaluation): with tasks of durations 7 and 2 and cycle
time 6, `balancear` succeeds but the sum of the station totals is 2 while the sum
of all task durations is 9 — conservation fails because the oversized task is
silently dropped. -/
theorem conservacion_violada :
    (balancear lineaConservacion).isOk = true ∧
    (balancear lineaConservacion).toOption.map (fun p => (p.1.map (·.tiempoTotal)).sum)
      = some 2 ∧
    obtenerTiempoTotalTareas lineaConservacion = 9 ∧ (2 : ℚ) ≠ 9 := by
  refine ⟨by decide, by decide, by decide, by decide⟩

/-- Claim C7 counterexample: a graph with the cycle A ↔ B plus a dangling reference
X has a directed precedence cycle and `detectar_ciclos` reports it, yet `balancear`
fails with the precedence-reference error, not the cycle error, because references
are validated before cycles. -/
theorem ciclo_con_referencia :
    HayCiclo lineaCicloConReferencia ∧
    detectarCiclos lineaCicloConReferencia = true ∧
    balancear lineaCicloConReferencia = .error .erroresPrecedencias ∧
    ValidacionError.erroresPrecedencias ≠ ValidacionError.ciclosDetectados := by
  refine ⟨⟨"A", Relation.TransGen.head
      (show Edge lineaCicloConReferencia "A" "B" by decide)
      (Relation.TransGen.single (show Edge lineaCicloConReferencia "B" "A" by decide))⟩,
    by decide, by decide, by decide⟩

/-- Witness for C7: the pure two-cycle A ↔ B with resolving references. -/
theorem ciclo_detectado_y_error_witness :
    validarPrecedencias lineaCiclo = [] ∧ HayCiclo lineaCiclo ∧
    (detectarCiclos lineaCiclo = true ∧ balancear lineaCiclo = .error .ciclosDetectados) := by
  have hcyc : HayCiclo lineaCiclo :=
    ⟨"A", Relation.TransGen.head (show Edge lineaCiclo "A" "B" by decide)
      (Relation.TransGen.single (show Edge lineaCiclo "B" "A" by decide))⟩
  exact ⟨by decide, hcyc, ciclo_detectado_y_error lineaCiclo (by decide) hcyc⟩

/-- Claim C8 counterexample: with demand 0 the cycle-time computation returns the
infinity value rather than failing, and `balancear` even completes successfully —
no configuration error is raised anywhere. -/
theorem demandaCero_sin_error :
    lineaDemandaCero.demandaDiaria = 0 ∧
    calcularTiempoCiclo lineaDemandaCero = none ∧
    (balancear lineaDemandaCero).isOk = true := by
  refine ⟨by decide, by decide, by decide⟩

/-- Witness for C8: concrete lines with demand 0 and demand 10. -/
theorem tiempoCiclo_comportamiento_witness :
    (calcularTiempoCiclo lineaDemandaCero = none ∧
      cicloNoPositivo (calcularTiempoCiclo lineaDemandaCero) = false) ∧
    calcularTiempoCiclo lineaSimple
      = some (lineaSimple.tiempoDisponible / (lineaSimple.demandaDiaria : ℚ)) :=
  ⟨(tiempoCiclo_comportamiento lineaDemandaCero).1 (by decide),
    (tiempoCiclo_comportamiento lineaSimple).2 (by decide)⟩

/-- Claim C9 counterexample: adding a task whose id duplicates an existing one
succeeds and silently replaces the original (the claim requires a validation
failure), and a 101-character description — beyond the documented length bound —
is accepted as well. -/
theorem duplicado_reemplaza :
    agregarTareaValidada lineaConA "A" "Nueva" 2 []
      = .ok ⟨[⟨"A", "Nueva", 2, [], 0⟩], [], 10, 60, 0⟩ ∧
    (agregarTareaValidada lineaConA "B" descripcionLarga 2 []).isOk = true ∧
    descripcionLarga.length = 101 := by
  refine ⟨by decide, by decide, by decide⟩

/-- Witness for C9: an empty id is rejected; a fresh valid task is inserted. -/
theorem agregarTarea_validacion_witness :
    (∃ e, agregarTareaValidada lineaConA "" "x" 1 [] = .error e) ∧
    agregarTareaValidada lineaConA "B" "y" 1 []
      = .ok (lineaConA.agregarTarea ⟨"B", "y", 1, ([] : List String).eraseDups, 0⟩) :=
  ⟨(agregarTarea_validacion lineaConA "" "x" 1 []).1 (Or.inl rfl),
    (agregarTarea_validacion lineaConA "B" "y" 1 []).2 (by decide) (by decide) (by decide)⟩

/-- Claim C10 counterexample: a freshly constructed station with capacity -1 (the
constructor accepts any capacity) already violates the invariant after the empty
operation sequence, since its total 0 exceeds -1. -/
theorem estacion_capacidad_negativa :
    aplicarOps (Estacion.nueva 1 (some (-1))) [] = Estacion.nueva 1 (some (-1)) ∧
    ¬ InvarianteEstacion (aplicarOps (Estacion.nueva 1 (some (-1))) []) := by
  refine ⟨rfl, by decide⟩

/-- Witness for C10: a station of capacity 5 under a concrete add/add/remove
sequence. -/
theorem estacion_invariante_witness :
    cicloLe 0 (some 5) = true ∧ (∀ op ∈ opsEjemplo, opPositiva op) ∧
    (InvarianteEstacion (aplicarOps (Estacion.nueva 1 (some 5)) opsEjemplo) ∧
      ∀ (e : Estacion) (t : Tarea), e.puedeAgregarTarea t = false →
        e.agregarTarea t = (false, e)) :=
  ⟨by decide, by decide, estacion_invariante 1 (some 5) opsEjemplo (by decide) (by decide)⟩

/-- Witness for C4: the single-task line is acyclic with unique ids. -/
theorem pesoPosicional_ecuacion_witness :
    (Ids lineaSimple).Nodup ∧ EsAciclico lineaSimple ∧
    ∀ t ∈ lineaSimple.tareas, pesoPosicional lineaSimple t.id =
      t.tiempo + ((sucesores lineaSimple t.id).map (pesoPosicional lineaSimple)).sum := by
  have hac : EsAciclico lineaSimple := by
    rintro ⟨v, hv⟩
    cases hv with
    | single h => exact absurd h.2 (by simp [sucesores, lineaSimple])
    | tail h1 h => exact absurd h.2 (by simp [sucesores, lineaSimple])
  exact ⟨by decide, hac, pesoPosicional_ecuacion lineaSimple (by decide) hac⟩

/-- Witness for C5: the single-task line balances successfully and re-balancing its
result state reproduces it exactly. -/
theorem balancear_idempotente_witness :
    balancear lineaSimple = .ok (estacionesSimple, estadisticasSimple, lineaSimpleFinal) ∧
    balancear lineaSimpleFinal
      = .ok (estacionesSimple, estadisticasSimple, lineaSimpleFinal) :=
  ⟨by decide,
    balancear_idempotente lineaSimple estacionesSimple estadisticasSimple lineaSimpleFinal
      (by decide)⟩

end Concretos
